import Mathlib

/-!
Verification of the term-player frame pipeline and playback state machine.

This file gives a shallow embedding of the JavaScript sources
(`src/frame/FrameSet.js` including the `Frame` class, `src/frame/Paint.js`,
the `Color` class, `src/player/Player.js`, `src/Controller.js` and the
frame-consuming tick of `src/display/BlessedDisplay.js`) and proves the
specified properties about the embedding.

Modelling conventions:
* JavaScript numbers appearing as ANSI color codes are modelled as `Int`
  (the transparency sentinel is `-1`); pixel components are `Nat`.
* JavaScript `null` and `undefined` are both modelled as `Option.none`
  whenever a value of either kind can flow into a color slot; no verified
  property distinguishes the two.
* The fractional block sizes used by `Frame#_countColors`
  (`this.dimension.height / dimension.height` etc.) are modelled with `Rat`
  in place of IEEE doubles; the verified properties compare two runs of the
  same computation or avoid the fractional path entirely, so they do not
  depend on rounding differences between `Rat` and doubles.
* JavaScript `Map` objects (the process-wide ANSI cache and the per-frame
  paint cache) are modelled as association lists in which a key is inserted
  only when absent.
-/

/-! ## FrameSet (`src/frame/FrameSet.js`)

Frames themselves are irrelevant to the buffer's behaviour, so the buffered
frames are modelled as a list of identifiers. -/

/-- State of a `FrameSet`: the `finalized` flag, the buffered frames (FIFO,
head is the front) and the `totalLength` counter. -/
structure FrameSetSt where
  finalized : Bool
  frames : List Nat
  totalLength : Nat
deriving Repr, DecidableEq

/-- `new FrameSet(frames)`: `finalized = false`, the initial frames are
copied (`frames ? frames.slice() : []`), and `totalLength` is set to `0`
regardless of the initial frames. -/
def FrameSetSt.mk0 (init : Option (List Nat)) : FrameSetSt :=
  { finalized := false, frames := init.getD [], totalLength := 0 }

/-- `FrameSet#hasNext`: `this[_frames].length > 0`. -/
def FrameSetSt.hasNextQ (fs : FrameSetSt) : Bool :=
  decide (0 < fs.frames.length)

/-- `FrameSet#add(frame)`: throws if finalized, otherwise pushes the frame
and increments `totalLength`. The returned state on failure is the receiver
unchanged (the throw happens before any mutation). -/
def FrameSetSt.addS (fs : FrameSetSt) (f : Nat) : Except String Unit × FrameSetSt :=
  if fs.finalized then
    (.error "Cannot add to frame set which has been finalized", fs)
  else
    (.ok (), { fs with frames := fs.frames ++ [f], totalLength := fs.totalLength + 1 })

/-- `FrameSet#finalize`: idempotent, only sets the flag. -/
def FrameSetSt.finalizeS (fs : FrameSetSt) : FrameSetSt :=
  if fs.finalized then fs else { fs with finalized := true }

/-- `FrameSet#next`: throws if `!this.hasNext()` (before any mutation),
otherwise shifts the front frame off the buffer. -/
def FrameSetSt.nextS (fs : FrameSetSt) : Except String Nat × FrameSetSt :=
  if fs.hasNextQ = false then
    (.error "No more frames in set", fs)
  else
    match fs.frames with
    | [] => (.error "No more frames in set", fs)
    | f :: rest => (.ok f, { fs with frames := rest })

/-- JavaScript `Array.prototype.slice(begin, end)` on a list: negative
indices count from the end, indices are clamped to `[0, length]`. -/
def jsSlice (l : List α) (b e : Int) : List α :=
  let n : Int := l.length
  let b' := (if b < 0 then max (n + b) 0 else min b n).toNat
  let e' := (if e < 0 then max (n + e) 0 else min e n).toNat
  (l.take e').drop b'

/-- `FrameSet#subSet(begin, end)`: builds `new FrameSet(slice)` (hence
`totalLength = 0`), then overwrites `totalLength` with the subset length and
copies a `true` finalized flag. Missing arguments default to `0` and
`this.length`. -/
def FrameSetSt.subSetS (fs : FrameSetSt) (b e : Option Int) : FrameSetSt :=
  let arr := jsSlice fs.frames (b.getD 0) (e.getD fs.frames.length)
  { finalized := fs.finalized, frames := arr, totalLength := arr.length }

/-- The operations a caller can perform on one `FrameSet` instance.
`subSetOp` returns a fresh set and leaves the receiver untouched. -/
inductive FOp where
  | add (f : Nat)
  | finalizeOp
  | nextOp
  | subSetOp (b e : Option Int)
deriving Repr, DecidableEq

/-- One operation applied to a `FrameSet`. A thrown error leaves the state
unchanged (callers observe the error; no mutation precedes the checks). -/
def FrameSetSt.stepOp (fs : FrameSetSt) : FOp → FrameSetSt
  | .add f => (fs.addS f).2
  | .finalizeOp => fs.finalizeS
  | .nextOp => (fs.nextS).2
  | .subSetOp _ _ => fs

/-- A sequence of operations applied in order. -/
def FrameSetSt.runOps (fs : FrameSetSt) (ops : List FOp) : FrameSetSt :=
  ops.foldl FrameSetSt.stepOp fs

/-- The number of `add` calls in `ops` that succeed when run from `fs`. -/
def FrameSetSt.countAdds (fs : FrameSetSt) : List FOp → Nat
  | [] => 0
  | op :: rest =>
    let n := (fs.stepOp op).countAdds rest
    match op with
    | .add _ => (if fs.finalized then 0 else 1) + n
    | _ => n

/-! ## Player and Controller (`src/player/Player.js`, `src/Controller.js`)

The player's state symbol, the decoder handle acquired by `Player#play`
(`getMediaReader`) and the `FrameSet` bound to the display by
`Controller#play` are the session data the verified properties observe. -/

/-- The three `PlayerState` symbols. -/
inductive PState where
  | stopped
  | playing
  | paused
deriving Repr, DecidableEq

/-- The session as observed through the controller: the player's state, the
decoder handle of the playback in progress (if any) and the `FrameSet` bound
to the display (if any). -/
structure SessionWorld where
  playerState : PState
  decoder : Option Nat
  frameSet : Option FrameSetSt
deriving Repr, DecidableEq

/-- `Controller#play(filePath, options)`. The guard
`if (!this.player.stopped) return Promise.reject(...)` runs before the file
check, the title lookup and `Player#play`. On the happy path (modelled
synchronously): the path is validated (`Files.isFile`), a media reader is
acquired, `Player#play` creates a fresh empty `FrameSet` and sets the state
to `PLAYING`, and the display is bound to the returned set. `fileOk` stands
for the result of the asynchronous `Files.isFile(filePath)` and `did` for
the decoder handle `getMediaReader` would return. -/
def controllerPlay (w : SessionWorld) (fileOk : Bool) (did : Nat) :
    Except String Unit × SessionWorld :=
  if w.playerState ≠ PState.stopped then
    (.error "Player must be stopped before playing another file", w)
  else if fileOk = false then
    (.error "Cannot play invalid file path", w)
  else
    (.ok (), { playerState := PState.playing, decoder := some did,
               frameSet := some (FrameSetSt.mk0 none) })

/-! ## Display tick (`src/display/BlessedDisplay.js`, `Display` class)

`_paintNextFrame` is the body of the interval timer started by the `frozen`
setter. The display state that the tick reads and writes: the `frozen`
flag, whether `render()` has happened (`isRendered()`), the bound frame set
(`null` after `unload`), and the current frame. `Controller#stop` is
modelled with it because the tick invokes it on exhaustion. -/

/-- Display plus session state for the render tick. -/
structure DisplayWorld where
  frozen : Bool
  rendered : Bool
  frameSet : Option FrameSetSt
  currentFrame : Option Nat
  playerState : PState
deriving Repr, DecidableEq

/-- `Controller#stop`: records whether the player was already stopped, sets
`player.stopped = true` (the setter assigns on a truthy argument), and
`display.unload()` freezes the display and clears the bound frame set.
Returns `true` iff a real transition occurred. -/
def controllerStop (w : DisplayWorld) : DisplayWorld × Bool :=
  let wasStopped := w.playerState = PState.stopped
  ({ w with playerState := PState.stopped, frozen := true, frameSet := none },
   ¬wasStopped)

/-- One render tick (`Display[_paintNextFrame]`). Returns the new world and
whether `Controller.stop()` was invoked. The guard
`this.frozen || !(this.isRendered() && this[_frameSet].hasNext())` is
evaluated left to right with JavaScript short-circuiting; dereferencing a
`null` frame set (only reachable when unfrozen and rendered with nothing
loaded) throws. Otherwise the front frame is consumed, becomes the current
frame, is painted, and `controller.stop()` runs exactly when the set is now
empty and finalized. -/
def tick (w : DisplayWorld) : Except String (DisplayWorld × Bool) :=
  if w.frozen then .ok (w, false)
  else if w.rendered = false then .ok (w, false)
  else
    match w.frameSet with
    | none => .error "TypeError: Cannot read hasNext of null"
    | some fs =>
      if fs.hasNextQ = false then .ok (w, false)
      else
        match fs.frames with
        | [] => .ok (w, false)
        | f :: rest =>
          let fs' : FrameSetSt := { fs with frames := rest }
          let w' : DisplayWorld :=
            { w with frameSet := some fs', currentFrame := some f }
          if fs'.hasNextQ = false ∧ fs'.finalized then
            .ok ((controllerStop w').1, true)
          else
            .ok (w', false)

/-! ## Color (`Color` class)

`serialize`/`deserialize` shuttle colors through strings. The components a
`Color` stores are whatever the constructor received: `deserialize` passes
the results of `String.prototype.split(',')` — strings — straight through,
so the round-tripped components are strings even when the original ones were
numbers. `JSVal` distinguishes the two. -/

/-- A JavaScript value stored in a color component slot. -/
inductive JSVal where
  | num (n : Int)
  | str (s : String)
deriving Repr, DecidableEq

/-- Template-literal rendering of a component (`${color.red}` etc.). -/
def JSVal.render : JSVal → String
  | .num n => toString n
  | .str s => s

/-- A `Color` instance: the four component slots as stored. The constructor
stores `red`, `green` and `blue` unchanged and defaults a missing `alpha`
to the number `255` (`alpha != null ? alpha : 255`). -/
structure ColorV where
  red : JSVal
  green : JSVal
  blue : JSVal
  alpha : JSVal
deriving Repr, DecidableEq

/-- `new Color(red, green, blue, alpha)` with a possibly-missing alpha. -/
def ColorV.mkC (r g b : JSVal) (a : Option JSVal) : ColorV :=
  { red := r, green := g, blue := b, alpha := a.getD (JSVal.num 255) }

/-- `Color.serialize(color)`: the template literal
`` `${color.red},${color.green},${color.blue},${color.alpha}` `` for a
non-null color. -/
def colorSerialize (c : Option ColorV) : Option String :=
  c.map fun c =>
    c.red.render ++ "," ++ c.green.render ++ "," ++ c.blue.render ++ ","
      ++ c.alpha.render

/-- Accumulating pass of `String.prototype.split(',')`: `cur` holds the
characters of the current field in reverse. -/
def splitCommaAux : List Char → List Char → List String
  | [], cur => [String.mk cur.reverse]
  | c :: rest, cur =>
    if c = ',' then String.mk cur.reverse :: splitCommaAux rest []
    else splitCommaAux rest (c :: cur)

/-- `String.prototype.split(',')`. -/
def jsSplitComma (s : String) : List String :=
  splitCommaAux s.data []

/-- `Color.deserialize(color)`: `null` maps to `null`; otherwise the string
is split on `','` and the first four parts — strings, or `undefined` when
missing — are handed to the constructor unconverted.  A missing `rgb[k]`
for `k < 3` is `undefined` and stored as such; these slots are modelled
with an empty-string stand-in, which no verified property reaches (the
serialized form always has four parts). -/
def colorDeserialize (s : Option String) : Option ColorV :=
  s.map fun s =>
    let rgb := (jsSplitComma s).map JSVal.str
    ColorV.mkC (rgb.getD 0 (JSVal.str "")) (rgb.getD 1 (JSVal.str ""))
      (rgb.getD 2 (JSVal.str "")) (rgb.get? 3)

/-! ## Color quantization cache (`Color#toAnsi`)

`Color#toAnsi` consults the process-wide `Color[_ansiCache]` map keyed by
`Color.serialize(this)` and falls back to `convert.rgb.ansi256` on a miss,
recording the result. The external `color-convert` function is an
uninterpreted parameter `conv`; the verified properties hold for every
conversion function. -/

/-- The process-wide cache: serialized RGBA string to ANSI code. -/
abbrev AnsiCache := List (String × Int)

/-- First binding of a key in the cache. -/
def lookupA (cache : AnsiCache) (k : String) : Option Int :=
  match cache with
  | [] => none
  | (k', v) :: rest => if k' = k then some v else lookupA rest k

/-- The cache key `Color.serialize(this)` for numeric components. -/
def serializeKey (r g b a : Nat) : String :=
  toString r ++ "," ++ toString g ++ "," ++ toString b ++ "," ++ toString a

/-- `Color#toAnsi`: return the cached code for the serialized color, or
convert and record it. -/
def toAnsiCached (conv : Nat → Nat → Nat → Int) (r g b a : Nat)
    (cache : AnsiCache) : Int × AnsiCache :=
  let key := serializeKey r g b a
  match lookupA cache key with
  | some v => (v, cache)
  | none => (conv r g b, (key, conv r g b) :: cache)

/-- `Color.isAnsiGrayscale(code)`: `code >= 232 || code === 59 || code === 16`. -/
def isAnsiGrayscale (code : Int) : Bool :=
  decide (232 ≤ code) || decide (code = 59) || decide (code = 16)

/-! ## Frame (`Frame` class in `src/frame/FrameSet.js`)

A frame is its pixel buffer (a flat `Uint8Array`, four entries per pixel)
plus its source dimension. Out-of-range `Uint8Array` reads give
`undefined`; a missing alpha therefore defaults to `255` in the `Color`
constructor (`alpha != null ? alpha : 255`), and missing r/g/b components
are modelled as `0` (no verified property reads a pixel buffer whose length
is not a multiple of four with different values there). -/

/-- A `Frame`'s data: pixel buffer and source dimension. -/
structure FrameData where
  pixels : List Nat
  width : Nat
  height : Nat
deriving Repr, DecidableEq

/-- `Frame#getPixelColor(pixels, index)`: build the pixel's `Color`; a
pixel with `alpha < 255` yields the transparency sentinel `-1`
(`Paint.TRANSPARENT_ANSI`), otherwise `Color#toAnsi` quantizes it. -/
def pixelColor (conv : Nat → Nat → Nat → Int) (pixels : List Nat) (i : Nat)
    (cache : AnsiCache) : Int × AnsiCache :=
  let r := (pixels.get? i).getD 0
  let g := (pixels.get? (i + 1)).getD 0
  let b := (pixels.get? (i + 2)).getD 0
  let a := (pixels.get? (i + 3)).getD 255
  if a < 255 then (-1, cache) else toAnsiCached conv r g b a cache

/-- The colors of the pixels listed in `ks` (pixel indices, in order),
threading the ANSI cache exactly as the `_countColors` loop does. -/
def colorsGo (conv : Nat → Nat → Nat → Int) (pixels : List Nat) :
    List Nat → AnsiCache → List Int × AnsiCache
  | [], cache => ([], cache)
  | k :: rest, cache =>
    let rc := pixelColor conv pixels (4 * k) cache
    let rest' := colorsGo conv pixels rest rc.2
    (rc.1 :: rest'.1, rest'.2)

/-- The destination cell of pixel number `k` (row-major linear pixel
index), from `Frame[_countColors]`:
`(floor(pixelIndex / blockWidth) % vw) + floor(pixelIndex / sw / blockHeight) * vw`
with `blockWidth = max(sw / vw, 1)` and `blockHeight = max(sh / vh, 1)`.
The divisions are JavaScript float divisions, modelled with `Rat`. -/
def cellIndex (sw sh vw vh k : Nat) : Nat :=
  let bw : ℚ := max ((sw : ℚ) / (vw : ℚ)) 1
  let bh : ℚ := max ((sh : ℚ) / (vh : ℚ)) 1
  let t1 : Int := (⌊(k : ℚ) / bw⌋) % (vw : Int)
  let t2 : Int := ⌊(k : ℚ) / (sw : ℚ) / bh⌋
  (t1 + t2 * vw).toNat

/-- A per-cell color histogram: codes in first-insertion order with their
occurrence counts (the own enumerable properties of `counts[index]`). -/
abbrev Hist := List (Int × Nat)

/-- `counts[index][color]++` (with creation of a missing property). -/
def histAdd : Hist → Int → Hist
  | [], c => [(c, 1)]
  | (c', n) :: rest, c =>
    if c' = c then (c', n + 1) :: rest else (c', n) :: histAdd rest c

/-- Record one `(cell, color)` observation in the sparse `counts` array,
modelled as an association list in first-assignment order. -/
def bumpAssoc : List (Nat × Hist) → Nat × Int → List (Nat × Hist)
  | [], p => [(p.1, [(p.2, 1)])]
  | (j, h) :: rest, p =>
    if j = p.1 then (j, histAdd h p.2) :: rest else (j, h) :: bumpAssoc rest p

/-- All `(cell, color)` observations of one frame, in pixel order. -/
def buildAssoc (ps : List (Nat × Int)) : List (Nat × Hist) :=
  ps.foldl bumpAssoc []

/-- First binding of a cell in the sparse counts. -/
def lookupCell (assoc : List (Nat × Hist)) (i : Nat) : Option Hist :=
  match assoc with
  | [] => none
  | (j, h) :: rest => if j = i then some h else lookupCell rest i

/-- The JavaScript array `counts`: dense up to the largest assigned index
(`counts.length` is that plus one), holes are `undefined`. -/
def materialize (assoc : List (Nat × Hist)) : List (Option Hist) :=
  match assoc with
  | [] => []
  | _ =>
    let maxIdx := (assoc.map Prod.fst).foldl max 0
    (List.range (maxIdx + 1)).map (lookupCell assoc)

/-- `Frame[_countColors](dimension)`: one pass over the pixels; for each
pixel its destination cell and its color (threading the ANSI cache in pixel
order, exactly as the source loop interleaves them) are recorded in the
sparse per-cell histograms. -/
def countColors (conv : Nat → Nat → Nat → Int) (f : FrameData) (vw vh : Nat)
    (cache : AnsiCache) : List (Option Hist) × AnsiCache :=
  let ks := List.range ((f.pixels.length + 3) / 4)
  let cs := colorsGo conv f.pixels ks cache
  let idxs := ks.map (cellIndex f.width f.height vw vh)
  (materialize (buildAssoc (idxs.zip cs.1)), cs.2)

/-! ## Paint (`src/frame/Paint.js`)

`Paint[_getProminentColor]` enumerates the histogram's own keys the way
`Object.keys` does — array-index keys (the non-negative codes) in ascending
numeric order first, then the remaining string keys (only the sentinel
`"-1"`) in insertion order — substitutes the previous paint's resolved
color for the transparency sentinel, halves grayscale weights, stably sorts
by descending weight and takes the head. A chosen color is `Option Int`
(`none` is JavaScript `null`, also covering an `undefined` element read
past the end of the previous colors array). -/

/-- Insert one histogram entry into a key-ascending list. -/
def insertKeyAsc (p : Int × Nat) : Hist → Hist
  | [] => [p]
  | q :: rest => if p.1 ≤ q.1 then p :: q :: rest else q :: insertKeyAsc p rest

/-- Sort histogram entries by ascending code. -/
def sortKeyAsc (h : Hist) : Hist :=
  h.foldr insertKeyAsc []

/-- `Object.keys` enumeration order for a histogram object: non-negative
integer keys ascending, then the negative (string) keys in insertion
order. -/
def enumKeysJs (h : Hist) : Hist :=
  sortKeyAsc (h.filter fun p => decide (0 ≤ p.1))
    ++ h.filter fun p => decide (p.1 < 0)

/-- The `.map` body of `_getProminentColor`: resolve the sentinel against
the previous colors when they exist (keeping it when they do not), then
halve the weight of grayscale codes. -/
def weightEntry (index : Nat) (previousColors : Option (List (Option Int)))
    (p : Int × Nat) : Option Int × ℚ :=
  let ansi : Option Int :=
    if p.1 = -1 then
      match previousColors with
      | some pc => (pc.get? index).getD none
      | none => some (-1)
    else some p.1
  let gray := match ansi with
    | some a => isAnsiGrayscale a
    | none => false
  (ansi, if gray then (p.2 : ℚ) / 2 else (p.2 : ℚ))

/-- Insert into a weight-descending list, after entries of equal weight
(the stable order `Array.prototype.sort` produces with the source's
comparator). -/
def insertCountDesc (x : Option Int × ℚ) :
    List (Option Int × ℚ) → List (Option Int × ℚ)
  | [] => [x]
  | y :: rest => if x.2 ≥ y.2 then x :: y :: rest else y :: insertCountDesc x rest

/-- Stable sort by descending weight. -/
def sortCountDesc (l : List (Option Int × ℚ)) : List (Option Int × ℚ) :=
  l.foldr insertCountDesc []

/-- `Paint[_getProminentColor](index, colors, previousColors)`: `null` for
a missing histogram, otherwise the color of the heaviest entry (`null`
again when the histogram has no keys). -/
def getProminentColor (index : Nat) (colors : Option Hist)
    (previousColors : Option (List (Option Int))) : Option Int :=
  match colors with
  | none => none
  | some h =>
    let sorted := sortCountDesc ((enumKeysJs h).map (weightEntry index previousColors))
    match sorted with
    | [] => none
    | e :: _ => e.1

/-- The per-cell chosen colors of the `Paint` constructor loop: cell `i`
gets `_getProminentColor(i, countedColors[i], previousColors)`. -/
def prominentList (previousColors : Option (List (Option Int))) (i : Nat) :
    List (Option Hist) → List (Option Int)
  | [] => []
  | h :: rest =>
    getProminentColor i h previousColors :: prominentList previousColors (i + 1) rest

/-- The chosen-color array of a `Paint` built from `countedColors` and the
previous paint's colors. -/
def mkPaintColors (counted : List (Option Hist))
    (previousColors : Option (List (Option Int))) : List (Option Int) :=
  prominentList previousColors 0 counted

/-- `Color.openAnsi(code)`: the template literal interpolates `null` for a
missing code. -/
def jsNumStr : Option Int → String
  | some n => toString n
  | none => "null"

/-- `Color.openAnsi(code)`. -/
def openEsc (c : Option Int) : String :=
  "\u001b[38;5;" ++ jsNumStr c ++ "m"

/-- `Color.closeAnsi()`. -/
def closeEsc : String :=
  "\u001b[39m"

/-- `Paint.ASCII_CHARACTER`. -/
def glyphStr : String :=
  "#"

/-- The string-building loop of the `Paint` constructor over the chosen
colors: when the cell's color differs from the running `previousColor`
(initially `null`), a close escape is appended if anything has been
emitted, then an open escape, and the running color is updated; every cell
appends one filler glyph; a final close escape is appended if the string is
non-empty. -/
def asciiGo (cur : Option Int) (acc : String) : List (Option Int) → String
  | [] => if acc ≠ "" then acc ++ closeEsc else acc
  | c :: rest =>
    let acc1 := if c ≠ cur then (if acc ≠ "" then acc ++ closeEsc else acc) ++ openEsc c
                else acc
    let cur1 := if c ≠ cur then c else cur
    asciiGo cur1 (acc1 ++ glyphStr) rest

/-- The ANSI-annotated string of a `Paint` with the given chosen colors. -/
def mkAscii (cs : List (Option Int)) : String :=
  asciiGo none "" cs

/-- A `Paint`: its string and its per-cell chosen colors (the back
reference to the source frame carries no verified content and is
omitted). -/
structure PaintV where
  ascii : String
  colors : List (Option Int)
deriving Repr, DecidableEq

/-- The `Paint` constructor: chosen colors from the counted histograms and
the last paint's color array (`lastPaint && lastPaint[_colors]`), and the
encoded string. -/
def mkPaint (counted : List (Option Hist)) (lastPaint : Option PaintV) : PaintV :=
  let previousColors := lastPaint.map PaintV.colors
  let cs := mkPaintColors counted previousColors
  { ascii := mkAscii cs, colors := cs }

/-! Token-level view of the same string, used to state where the escapes
fall. `renderToks` maps a token list to the string it denotes. -/

/-- One emitted piece of a paint string. -/
inductive PTok where
  | openT (c : Option Int)
  | glyphT
  | closeT
deriving Repr, DecidableEq

/-- The string a token denotes. -/
def renderTok : PTok → String
  | .openT c => openEsc c
  | .glyphT => glyphStr
  | .closeT => closeEsc

/-- The string a token list denotes. -/
def renderToks : List PTok → String
  | [] => ""
  | t :: rest => renderTok t ++ renderToks rest

/-- The emission discipline the encoder actually follows, written as a
token stream: an open escape exactly when the chosen color differs from the
running current color (initially `null`), preceded by a close escape unless
nothing has been emitted yet; one glyph per cell; one final close escape
iff anything was emitted. -/
def specToksGo (cur : Option Int) (emitted : Bool) : List (Option Int) → List PTok
  | [] => if emitted then [PTok.closeT] else []
  | c :: rest =>
    if c ≠ cur then
      (if emitted then [PTok.closeT] else []) ++ PTok.openT c :: PTok.glyphT
        :: specToksGo c true rest
    else
      PTok.glyphT :: specToksGo cur true rest

/-- The token stream of a whole chosen-color list. -/
def specToks (cs : List (Option Int)) : List PTok :=
  specToksGo none false cs

/-! ## Frame paint cache (`Frame#getPaint`)

`getPaint` memoizes the `Paint` per stringified target dimension. On a
miss it counts the colors, asks the previous frame for its paint for the
same dimension — `previousFrame.getPaint(dimension)` with no third
argument, so the previous frame's own cache answers, or its paint is built
with no predecessor — and stores the new `Paint`. The previous frame's own
cache insertion is not tracked: no verified property observes it. -/

/-- A frame's paint cache, keyed by `` `${dimension}` ``. -/
abbrev PaintCache := List (String × PaintV)

/-- First binding of a key in a paint cache. -/
def lookupP (cache : PaintCache) (k : String) : Option PaintV :=
  match cache with
  | [] => none
  | (k', v) :: rest => if k' = k then some v else lookupP rest k

/-- `Dimension#toString`: `` `${width}x${height}` ``. -/
def dimKey (vw vh : Nat) : String :=
  toString vw ++ "x" ++ toString vh

/-- `Frame#getPaint(dimension, previousFrame)`. The frame's mutable state
is its paint cache; the previous frame argument carries its own data and
cache. Returns the paint, the receiver's new paint cache and the new
process-wide ANSI cache. -/
def getPaintS (conv : Nat → Nat → Nat → Int) (f : FrameData) (pc : PaintCache)
    (vw vh : Nat) (prev : Option (FrameData × PaintCache)) (ac : AnsiCache) :
    PaintV × PaintCache × AnsiCache :=
  let key := dimKey vw vh
  match lookupP pc key with
  | some p => (p, pc, ac)
  | none =>
    let counted := countColors conv f vw vh ac
    let lastA : Option PaintV × AnsiCache :=
      match prev with
      | none => (none, counted.2)
      | some (pf, ppc) =>
        match lookupP ppc key with
        | some pp => (some pp, counted.2)
        | none =>
          let pcounted := countColors conv pf vw vh counted.2
          (some (mkPaint pcounted.1 none), pcounted.2)
    let p := mkPaint counted.1 lastA.1
    (p, (key, p) :: pc, lastA.2)

/-! ## Lemmas about FrameSet operations -/

theorem FrameSetSt.runOps_nil (fs : FrameSetSt) : fs.runOps [] = fs := rfl

theorem FrameSetSt.runOps_cons (fs : FrameSetSt) (op : FOp) (rest : List FOp) :
    fs.runOps (op :: rest) = (fs.stepOp op).runOps rest := rfl

theorem FrameSetSt.nextS_snd (fs : FrameSetSt) :
    (fs.nextS).2.totalLength = fs.totalLength ∧ (fs.nextS).2.finalized = fs.finalized := by
  unfold FrameSetSt.nextS
  cases h : fs.frames <;> simp [FrameSetSt.hasNextQ, h]

theorem FrameSetSt.finalizeS_snd (fs : FrameSetSt) :
    fs.finalizeS.totalLength = fs.totalLength ∧ fs.finalizeS.frames = fs.frames := by
  unfold FrameSetSt.finalizeS
  split <;> simp

theorem FrameSetSt.stepOp_finalized_frozen (fs : FrameSetSt) (op : FOp)
    (h : fs.finalized = true) :
    (fs.stepOp op).totalLength = fs.totalLength ∧ (fs.stepOp op).finalized = true := by
  cases op with
  | add f => simp [FrameSetSt.stepOp, FrameSetSt.addS, h]
  | finalizeOp => simp [FrameSetSt.stepOp, FrameSetSt.finalizeS, h]
  | nextOp =>
    refine ⟨(fs.nextS_snd).1, ?_⟩
    rw [FrameSetSt.stepOp, (fs.nextS_snd).2, h]
  | subSetOp b e => exact ⟨rfl, h⟩

theorem FrameSetSt.stepOp_invariant (fs : FrameSetSt) (op : FOp)
    (h : fs.frames.length ≤ fs.totalLength) :
    (fs.stepOp op).frames.length ≤ (fs.stepOp op).totalLength := by
  cases op with
  | add f =>
    by_cases hf : fs.finalized <;>
      simp [FrameSetSt.stepOp, FrameSetSt.addS, hf] <;> omega
  | finalizeOp =>
    rw [FrameSetSt.stepOp, (fs.finalizeS_snd).1, (fs.finalizeS_snd).2]
    exact h
  | nextOp =>
    rw [FrameSetSt.stepOp]
    unfold FrameSetSt.nextS
    cases hfr : fs.frames with
    | nil => simp only [FrameSetSt.hasNextQ, hfr]; simpa using h
    | cons f rest =>
      simp only [FrameSetSt.hasNextQ, hfr]
      simp only [List.length_cons]
      split
      · simp only [List.length_cons]; omega
      · simp only [List.length_cons] at h ⊢
        rw [hfr] at h
        simp at h
        omega
  | subSetOp b e => exact h

theorem FrameSetSt.runOps_invariant (ops : List FOp) :
    ∀ fs : FrameSetSt, fs.frames.length ≤ fs.totalLength →
      (fs.runOps ops).frames.length ≤ (fs.runOps ops).totalLength := by
  induction ops with
  | nil => intro fs h; exact h
  | cons op rest ih =>
    intro fs h
    rw [FrameSetSt.runOps_cons]
    exact ih _ (fs.stepOp_invariant op h)

theorem FrameSetSt.runOps_total_eq_adds (ops : List FOp) :
    ∀ fs : FrameSetSt, (fs.runOps ops).totalLength = fs.totalLength + fs.countAdds ops := by
  induction ops with
  | nil => intro fs; simp [FrameSetSt.runOps, FrameSetSt.countAdds]
  | cons op rest ih =>
    intro fs
    rw [FrameSetSt.runOps_cons, ih]
    cases op with
    | add f =>
      by_cases hf : fs.finalized <;>
        simp [FrameSetSt.countAdds, FrameSetSt.stepOp, FrameSetSt.addS, hf] <;> omega
    | finalizeOp =>
      simp only [FrameSetSt.countAdds, FrameSetSt.stepOp]
      rw [(fs.finalizeS_snd).1]
    | nextOp =>
      simp only [FrameSetSt.countAdds, FrameSetSt.stepOp]
      rw [(fs.nextS_snd).1]
    | subSetOp b e =>
      simp only [FrameSetSt.countAdds, FrameSetSt.stepOp]

theorem FrameSetSt.runOps_finalized_frozen (ops : List FOp) :
    ∀ fs : FrameSetSt, fs.finalized = true →
      (fs.runOps ops).totalLength = fs.totalLength := by
  induction ops with
  | nil => intro fs _; rfl
  | cons op rest ih =>
    intro fs h
    rw [FrameSetSt.runOps_cons]
    have step := fs.stepOp_finalized_frozen op h
    rw [ih _ step.2, step.1]

/-- C1 (amended): for a `FrameSet` constructed with an empty (or absent)
initial frames array, after any operation sequence `totalLength` equals the
number of successful `add` calls and `totalLength ≥ length` holds; the
`FrameSet` returned by `subSet` starts with `totalLength = length` (its
`totalLength` is the slice size, not an `add` count) and keeps the
invariant under any further operations; and once finalized, `totalLength`
never changes.  The claim's additional demand that `totalLength ≥ length`
hold for a `FrameSet` constructed with a non-empty initial frames array is
false — the constructor leaves `totalLength = 0` — see the
counterexample. -/
theorem frameSet_totalLength_invariant :
    (∀ ops : List FOp,
      ((FrameSetSt.mk0 none).runOps ops).totalLength
          = (FrameSetSt.mk0 none).countAdds ops
        ∧ ((FrameSetSt.mk0 none).runOps ops).frames.length
          ≤ ((FrameSetSt.mk0 none).runOps ops).totalLength)
    ∧ (∀ (fs : FrameSetSt) (b e : Option Int) (ops : List FOp),
        (fs.subSetS b e).totalLength = (fs.subSetS b e).frames.length
          ∧ ((fs.subSetS b e).runOps ops).frames.length
            ≤ ((fs.subSetS b e).runOps ops).totalLength)
    ∧ (∀ (fs : FrameSetSt) (ops : List FOp), fs.finalized = true →
        (fs.runOps ops).totalLength = fs.totalLength) := by
  refine ⟨fun ops => ⟨?_, ?_⟩, fun fs b e ops => ⟨rfl, ?_⟩, fun fs ops h => ?_⟩
  · rw [FrameSetSt.runOps_total_eq_adds]
    simp [FrameSetSt.mk0]
  · exact FrameSetSt.runOps_invariant ops _ (by simp [FrameSetSt.mk0])
  · exact FrameSetSt.runOps_invariant ops _ (le_of_eq rfl)
  · exact FrameSetSt.runOps_finalized_frozen ops fs h

/-- C1 counterexample: a `FrameSet` constructed with one initial frame has
`totalLength = 0 < 1 = length` before any operation runs, so the claimed
invariant `totalLength ≥ length` fails for that way of constructing one. -/
theorem frameSet_initial_frames_break_invariant :
    ¬ ((FrameSetSt.mk0 (some [0])).frames.length
        ≤ (FrameSetSt.mk0 (some [0])).totalLength) := by
  decide

/-- C1 witness: the amended theorem applied at `[add 0, finalize, next]`
from an empty construction, at a concrete `subSet`, and at a concrete
finalized set. -/
theorem frameSet_totalLength_invariant_witness :
    (((FrameSetSt.mk0 none).runOps [FOp.add 0, FOp.finalizeOp, FOp.nextOp]).totalLength
        = (FrameSetSt.mk0 none).countAdds [FOp.add 0, FOp.finalizeOp, FOp.nextOp])
    ∧ ((⟨true, [], 5⟩ : FrameSetSt).finalized = true
        ∧ ((⟨true, [], 5⟩ : FrameSetSt).runOps [FOp.add 1, FOp.nextOp]).totalLength
          = (⟨true, [], 5⟩ : FrameSetSt).totalLength) :=
  ⟨(frameSet_totalLength_invariant.1 [FOp.add 0, FOp.finalizeOp, FOp.nextOp]).1,
   rfl,
   frameSet_totalLength_invariant.2.2 ⟨true, [], 5⟩ [FOp.add 1, FOp.nextOp] rfl⟩

/-- C6: `next()` on a `FrameSet` with zero buffered frames fails with the
"No more frames in set" error whatever the finalized flag, and the state it
leaves behind is the receiver itself — frames, length, `totalLength` and
`finalized` unchanged. -/
theorem frameSet_next_empty_fails (fs : FrameSetSt) (h : fs.frames = []) :
    fs.nextS = (Except.error "No more frames in set", fs) := by
  unfold FrameSetSt.nextS
  simp [FrameSetSt.hasNextQ, h]

/-- C6 witness: the theorem applied to an empty non-finalized set and to an
empty finalized set. -/
theorem frameSet_next_empty_fails_witness :
    (⟨false, [], 0⟩ : FrameSetSt).nextS
        = (Except.error "No more frames in set", (⟨false, [], 0⟩ : FrameSetSt))
      ∧ (⟨true, [], 3⟩ : FrameSetSt).nextS
        = (Except.error "No more frames in set", (⟨true, [], 3⟩ : FrameSetSt)) :=
  ⟨frameSet_next_empty_fails ⟨false, [], 0⟩ rfl,
   frameSet_next_empty_fails ⟨true, [], 3⟩ rfl⟩

/-- C2: `Controller#play` invoked while the player is not `STOPPED` (for
example `PLAYING`) rejects with the "must be stopped" error before touching
anything: the returned session — player state, decoder handle and bound
`FrameSet` — is the input session unchanged. -/
theorem controllerPlay_not_stopped_fails (w : SessionWorld) (fileOk : Bool)
    (did : Nat) (h : w.playerState ≠ PState.stopped) :
    controllerPlay w fileOk did
      = (Except.error "Player must be stopped before playing another file", w) := by
  unfold controllerPlay
  rw [if_pos h]

/-- C2 witness: the theorem applied to a playing session with a live
decoder and a bound frame set. -/
theorem controllerPlay_not_stopped_fails_witness :
    (⟨PState.playing, some 4, some ⟨false, [9], 1⟩⟩ : SessionWorld).playerState
        ≠ PState.stopped
      ∧ controllerPlay ⟨PState.playing, some 4, some ⟨false, [9], 1⟩⟩ true 7
        = (Except.error "Player must be stopped before playing another file",
           (⟨PState.playing, some 4, some ⟨false, [9], 1⟩⟩ : SessionWorld)) :=
  ⟨by decide,
   controllerPlay_not_stopped_fails ⟨PState.playing, some 4, some ⟨false, [9], 1⟩⟩
     true 7 (by decide)⟩

/-- C9 (amended): the render tick invokes `Controller.stop()` exactly on
the tick that consumes a frame and thereby leaves the bound `FrameSet`
empty and finalized — teardown then stops the player, freezes the display
and unbinds the set.  A tick that begins with no buffered frame returns
early without invoking stop and without mutating anything, so a finalized
`FrameSet` that never held a frame (or is merely observed after
exhaustion) does not trigger auto-stop. -/
theorem tick_auto_stop :
    (∀ (w : DisplayWorld) (fs : FrameSetSt) (f : Nat),
      w.frozen = false → w.rendered = true → w.frameSet = some fs →
      fs.frames = [f] → fs.finalized = true →
      tick w = Except.ok
        ({ frozen := true, rendered := w.rendered, frameSet := none,
           currentFrame := some f, playerState := PState.stopped }, true))
    ∧ (∀ (w : DisplayWorld) (fs : FrameSetSt),
        w.frameSet = some fs → fs.frames = [] →
        tick w = Except.ok (w, false)) := by
  constructor
  · intro w fs f hfz hr hset hframes hfin
    obtain ⟨fz, rd, fset, cf, ps⟩ := w
    obtain ⟨ffin, ffr, ftot⟩ := fs
    simp only at hfz hr hset hframes hfin
    subst hfz hr hset hframes hfin
    simp [tick, FrameSetSt.hasNextQ, controllerStop]
  · intro w fs hset hframes
    unfold tick
    by_cases hfz : w.frozen
    · rw [if_pos hfz]
    · rw [if_neg hfz]
      by_cases hr : w.rendered
      · rw [hr, hset]
        simp [FrameSetSt.hasNextQ, hframes]
      · simp only [Bool.not_eq_true] at hr
        rw [hr]
        simp

/-- C9 counterexample: an unfrozen, rendered display bound to a finalized
`FrameSet` to which no frame was ever added (`totalLength = 0`): the tick
observes `!hasNext() && finalized` yet returns without invoking
`Controller.stop()` — the early `return` fires before the auto-stop
check, contradicting the claim. -/
theorem tick_exhausted_without_consume_no_stop :
    tick { frozen := false, rendered := true,
           frameSet := some ⟨true, [], 0⟩,
           currentFrame := none, playerState := PState.playing }
      = Except.ok ({ frozen := false, rendered := true,
                     frameSet := some ⟨true, [], 0⟩,
                     currentFrame := none, playerState := PState.playing }, false) := by
  rfl

/-- C9 witness: the amended theorem applied to a one-frame finalized set
(stop fires with full teardown) and to an exhausted finalized set (no-op
tick). -/
theorem tick_auto_stop_witness :
    (tick { frozen := false, rendered := true, frameSet := some ⟨true, [8], 1⟩,
            currentFrame := none, playerState := PState.playing }
        = Except.ok ({ frozen := true, rendered := true, frameSet := none,
                       currentFrame := some 8, playerState := PState.stopped }, true))
    ∧ (tick { frozen := false, rendered := true, frameSet := some ⟨true, [], 1⟩,
              currentFrame := some 8, playerState := PState.playing }
        = Except.ok ({ frozen := false, rendered := true, frameSet := some ⟨true, [], 1⟩,
                       currentFrame := some 8, playerState := PState.playing }, false)) :=
  ⟨tick_auto_stop.1 _ ⟨true, [8], 1⟩ 8 rfl rfl rfl rfl rfl,
   tick_auto_stop.2 _ ⟨true, [], 1⟩ rfl rfl⟩

/-- C7: evaluating the round trip at the failing input
`new Color(18, 52, 86, 255)`: `Color.deserialize(Color.serialize(c))`
stores the split substrings themselves, so the reconstructed components
are the strings `"18"`, `"52"`, `"86"`, `"255"`, none of which is the
number it came from. -/
theorem colorDeserialize_serialize_yields_strings :
    colorDeserialize (colorSerialize (some
        ⟨JSVal.num 18, JSVal.num 52, JSVal.num 86, JSVal.num 255⟩))
      = some ⟨JSVal.str "18", JSVal.str "52", JSVal.str "86", JSVal.str "255"⟩
    ∧ JSVal.str "18" ≠ JSVal.num 18 := by
  constructor
  · rfl
  · decide

/-! ## Lemmas about prominent-color selection -/

theorem isAnsiGrayscale_ne_neg_one (a : Int) (h : isAnsiGrayscale a = true) :
    a ≠ -1 := by
  unfold isAnsiGrayscale at h
  simp only [Bool.or_eq_true, decide_eq_true_eq] at h
  rcases h with (h | h) | h <;> omega

theorem weightEntry_gray (idx : Nat) (a : Int) (n : Nat)
    (h : isAnsiGrayscale a = true) :
    weightEntry idx none (a, n) = (some a, (n : ℚ) / 2) := by
  unfold weightEntry
  rw [if_neg (isAnsiGrayscale_ne_neg_one a h)]
  simp [h]

theorem weightEntry_nongray (idx : Nat) (b : Int) (n : Nat)
    (h : isAnsiGrayscale b = false) :
    weightEntry idx none (b, n) = (some b, (n : ℚ)) := by
  unfold weightEntry
  by_cases hb : b = -1
  · subst hb
    simp [isAnsiGrayscale]
  · rw [if_neg hb]
    simp [h]


theorem enumKeysJs_pair (p q : Int × Nat) :
    enumKeysJs [p, q] = [p, q] ∨ enumKeysJs [p, q] = [q, p] := by
  unfold enumKeysJs sortKeyAsc
  by_cases hp : 0 ≤ p.1 <;> by_cases hq : 0 ≤ q.1
  · have hp1 : decide (0 ≤ p.1) = true := decide_eq_true hp
    have hp2 : decide (p.1 < 0) = false := decide_eq_false (not_lt.mpr hp)
    have hq1 : decide (0 ≤ q.1) = true := decide_eq_true hq
    have hq2 : decide (q.1 < 0) = false := decide_eq_false (not_lt.mpr hq)
    simp only [List.filter_cons, List.filter_nil, hp1, hp2, hq1, hq2,
      if_true, if_false, List.foldr, insertKeyAsc, List.append_nil]
    split
    · exact Or.inl rfl
    · exact Or.inr rfl
  · have hp1 : decide (0 ≤ p.1) = true := decide_eq_true hp
    have hp2 : decide (p.1 < 0) = false := decide_eq_false (not_lt.mpr hp)
    have hq1 : decide (0 ≤ q.1) = false := decide_eq_false hq
    have hq2 : decide (q.1 < 0) = true := decide_eq_true (not_le.mp hq)
    simp only [List.filter_cons, List.filter_nil, hp1, hp2, hq1, hq2,
      if_true, if_false, List.foldr, insertKeyAsc, List.append_nil]
    exact Or.inl rfl
  · have hp1 : decide (0 ≤ p.1) = false := decide_eq_false hp
    have hp2 : decide (p.1 < 0) = true := decide_eq_true (not_le.mp hp)
    have hq1 : decide (0 ≤ q.1) = true := decide_eq_true hq
    have hq2 : decide (q.1 < 0) = false := decide_eq_false (not_lt.mpr hq)
    simp only [List.filter_cons, List.filter_nil, hp1, hp2, hq1, hq2,
      if_true, if_false, List.foldr, insertKeyAsc, List.append_nil]
    exact Or.inr rfl
  · have hp1 : decide (0 ≤ p.1) = false := decide_eq_false hp
    have hp2 : decide (p.1 < 0) = true := decide_eq_true (not_le.mp hp)
    have hq1 : decide (0 ≤ q.1) = false := decide_eq_false hq
    have hq2 : decide (q.1 < 0) = true := decide_eq_true (not_le.mp hq)
    simp only [List.filter_cons, List.filter_nil, hp1, hp2, hq1, hq2,
      if_true, if_false, List.foldr, insertKeyAsc, List.append_nil]
    exact Or.inl rfl

theorem sortCountDesc_pair_lt (e1 e2 : Option Int × ℚ) (h : e1.2 < e2.2) :
    sortCountDesc [e1, e2] = [e2, e1] ∧ sortCountDesc [e2, e1] = [e2, e1] := by
  constructor
  · show insertCountDesc e1 (insertCountDesc e2 []) = [e2, e1]
    simp [insertCountDesc, not_le.mpr h, le_of_lt h]
  · show insertCountDesc e2 (insertCountDesc e1 []) = [e2, e1]
    simp [insertCountDesc, le_of_lt h]

/-- C4: in a cell histogram of exactly two codes with equal raw occurrence
counts, one grayscale per the boundary rule (`code ≥ 232 ∨ code = 59 ∨
code = 16`) and one not, the prominent-color selection returns the
non-grayscale code in either enumeration order, because the grayscale
code's effective count is halved before the maximum is taken. -/
theorem grayscale_bias_selects_nongray (a b : Int) (n idx : Nat)
    (ha : isAnsiGrayscale a = true) (hb : isAnsiGrayscale b = false)
    (hn : 1 ≤ n) :
    getProminentColor idx (some [(a, n), (b, n)]) none = some b
      ∧ getProminentColor idx (some [(b, n), (a, n)]) none = some b := by
  have hlt : (n : ℚ) / 2 < (n : ℚ) := by
    have h1 : (1 : ℚ) ≤ (n : ℚ) := by exact_mod_cast hn
    linarith
  have hsort := sortCountDesc_pair_lt (some a, (n : ℚ) / 2) (some b, (n : ℚ)) hlt
  constructor
  · simp only [getProminentColor]
    rcases enumKeysJs_pair (a, n) (b, n) with h | h <;> rw [h] <;>
      simp only [List.map, weightEntry_gray idx a n ha, weightEntry_nongray idx b n hb]
    · rw [hsort.1]
    · rw [hsort.2]
  · simp only [getProminentColor]
    rcases enumKeysJs_pair (b, n) (a, n) with h | h <;> rw [h] <;>
      simp only [List.map, weightEntry_gray idx a n ha, weightEntry_nongray idx b n hb]
    · rw [hsort.2]
    · rw [hsort.1]

/-- C4 witness: codes 232 (grayscale ramp) and 196 (color cube) with three
pixels each: 196 wins in both enumeration orders. -/
theorem grayscale_bias_selects_nongray_witness :
    isAnsiGrayscale 232 = true ∧ isAnsiGrayscale 196 = false ∧ 1 ≤ 3
      ∧ getProminentColor 0 (some [(232, 3), (196, 3)]) none = some 196
      ∧ getProminentColor 0 (some [(196, 3), (232, 3)]) none = some 196 :=
  ⟨by decide, by decide, by decide,
   (grayscale_bias_selects_nongray 232 196 3 0 (by decide) (by decide) (by decide)).1,
   (grayscale_bias_selects_nongray 232 196 3 0 (by decide) (by decide) (by decide)).2⟩

/-! ## Lemmas about the paint cache and the ANSI cache -/

theorem lookupP_cons_self (pc : PaintCache) (k : String) (p : PaintV) :
    lookupP ((k, p) :: pc) k = some p := by
  simp [lookupP]

theorem getPaintS_hit (conv : Nat → Nat → Nat → Int) (f : FrameData)
    (pc : PaintCache) (vw vh : Nat) (prev : Option (FrameData × PaintCache))
    (ac : AnsiCache) (p : PaintV) (h : lookupP pc (dimKey vw vh) = some p) :
    getPaintS conv f pc vw vh prev ac = (p, pc, ac) := by
  simp only [getPaintS]
  rw [h]

theorem getPaintS_lookup_result (conv : Nat → Nat → Nat → Int) (f : FrameData)
    (pc : PaintCache) (vw vh : Nat) (prev : Option (FrameData × PaintCache))
    (ac : AnsiCache) :
    lookupP (getPaintS conv f pc vw vh prev ac).2.1 (dimKey vw vh)
      = some (getPaintS conv f pc vw vh prev ac).1 := by
  simp only [getPaintS]
  cases h : lookupP pc (dimKey vw vh) with
  | some p => simpa using h
  | none => simp [lookupP_cons_self]

/-- C10: once `f.getPaint(d, p)` has been called with any previous-frame
argument, every later `f.getPaint(d, q)` — for every `q`, including none
at all, and in any later ANSI-cache state — returns the very same cached
`Paint` and leaves the frame's paint cache and the ANSI cache untouched:
the previous frame influences only the call that fills the cache entry. -/
theorem getPaint_previous_frame_only_first_call
    (conv : Nat → Nat → Nat → Int) (f : FrameData) (pc : PaintCache)
    (vw vh : Nat) (p q : Option (FrameData × PaintCache)) (ac ac' : AnsiCache) :
    getPaintS conv f (getPaintS conv f pc vw vh p ac).2.1 vw vh q ac'
      = ((getPaintS conv f pc vw vh p ac).1,
         (getPaintS conv f pc vw vh p ac).2.1, ac') :=
  getPaintS_hit conv f _ vw vh q ac' _ (getPaintS_lookup_result conv f pc vw vh p ac)

theorem toAnsiCached_lookup_self (conv : Nat → Nat → Nat → Int) (r g b a : Nat)
    (cache : AnsiCache) :
    lookupA (toAnsiCached conv r g b a cache).2 (serializeKey r g b a)
      = some (toAnsiCached conv r g b a cache).1 := by
  simp only [toAnsiCached]
  cases h : lookupA cache (serializeKey r g b a) with
  | some v => simpa using h
  | none => simp [lookupA]

theorem toAnsiCached_mono (conv : Nat → Nat → Nat → Int) (r g b a : Nat)
    (cache : AnsiCache) (k : String) (v : Int) (h : lookupA cache k = some v) :
    lookupA (toAnsiCached conv r g b a cache).2 k = some v := by
  simp only [toAnsiCached]
  cases hl : lookupA cache (serializeKey r g b a) with
  | some w => simpa using h
  | none =>
    simp only [lookupA]
    split
    · rename_i hk
      rw [hk] at hl
      rw [hl] at h
      exact Option.noConfusion h
    · exact h

theorem toAnsiCached_cached (conv : Nat → Nat → Nat → Int) (r g b a : Nat)
    (cache : AnsiCache) (v : Int)
    (h : lookupA cache (serializeKey r g b a) = some v) :
    toAnsiCached conv r g b a cache = (v, cache) := by
  simp only [toAnsiCached]
  rw [h]

theorem pixelColor_mono (conv : Nat → Nat → Nat → Int) (pixels : List Nat)
    (i : Nat) (cache : AnsiCache) (k : String) (v : Int)
    (h : lookupA cache k = some v) :
    lookupA (pixelColor conv pixels i cache).2 k = some v := by
  simp only [pixelColor]
  split
  · exact h
  · exact toAnsiCached_mono conv _ _ _ _ cache k v h

theorem colorsGo_mono (conv : Nat → Nat → Nat → Int) (pixels : List Nat) :
    ∀ (ks : List Nat) (cache : AnsiCache) (k : String) (v : Int),
      lookupA cache k = some v →
      lookupA (colorsGo conv pixels ks cache).2 k = some v := by
  intro ks
  induction ks with
  | nil => intro cache k v h; exact h
  | cons k0 rest ih =>
    intro cache k v h
    simp only [colorsGo]
    exact ih _ k v (pixelColor_mono conv pixels _ cache k v h)

theorem pixelColor_stable (conv : Nat → Nat → Nat → Int) (pixels : List Nat)
    (i : Nat) (cache cache' : AnsiCache)
    (h : ∀ k v, lookupA (pixelColor conv pixels i cache).2 k = some v →
          lookupA cache' k = some v) :
    pixelColor conv pixels i cache' = ((pixelColor conv pixels i cache).1, cache') := by
  simp only [pixelColor] at h ⊢
  split
  · rfl
  · rename_i ha
    refine toAnsiCached_cached conv _ _ _ _ cache' _ ?_
    refine h _ _ ?_
    rw [if_neg ha] at *
    exact toAnsiCached_lookup_self conv _ _ _ _ cache

theorem colorsGo_stable (conv : Nat → Nat → Nat → Int) (pixels : List Nat) :
    ∀ (ks : List Nat) (cache : AnsiCache),
      colorsGo conv pixels ks ((colorsGo conv pixels ks cache).2)
        = colorsGo conv pixels ks cache := by
  intro ks
  induction ks with
  | nil => intro cache; rfl
  | cons k0 rest ih =>
    intro cache
    have hpix : pixelColor conv pixels (4 * k0) ((colorsGo conv pixels (k0 :: rest) cache).2)
        = ((pixelColor conv pixels (4 * k0) cache).1,
           (colorsGo conv pixels (k0 :: rest) cache).2) := by
      refine pixelColor_stable conv pixels _ cache _ ?_
      intro k v h
      simp only [colorsGo]
      exact colorsGo_mono conv pixels rest _ k v h
    simp only [colorsGo] at hpix ⊢
    rw [hpix]
    rw [ih ((pixelColor conv pixels (4 * k0) cache).2)]

theorem countColors_stable (conv : Nat → Nat → Nat → Int) (f : FrameData)
    (vw vh : Nat) (ac : AnsiCache) :
    countColors conv f vw vh ((countColors conv f vw vh ac).2)
      = countColors conv f vw vh ac := by
  simp only [countColors]
  rw [colorsGo_stable]

/-- C8: (a) a second `getPaint` call with the same target dimension on the
same frame is a cache hit: it returns the very paint the first call
produced and changes neither the frame's paint cache nor the process-wide
ANSI cache; (b) two different frames with identical pixel buffers and
identical source dimensions, painted one after the other for the same
target dimension with no previous frame, produce paints with identical
output strings — the second paint is computed through the ANSI cache the
first left behind, and every key it consults answers with the value the
first run used. -/
theorem getPaint_cache_hit_and_determinism :
    (∀ (conv : Nat → Nat → Nat → Int) (f : FrameData) (pc : PaintCache)
        (vw vh : Nat) (prev : Option (FrameData × PaintCache)) (ac : AnsiCache),
      getPaintS conv f (getPaintS conv f pc vw vh prev ac).2.1 vw vh prev
          (getPaintS conv f pc vw vh prev ac).2.2
        = ((getPaintS conv f pc vw vh prev ac).1,
           (getPaintS conv f pc vw vh prev ac).2.1,
           (getPaintS conv f pc vw vh prev ac).2.2))
    ∧ (∀ (conv : Nat → Nat → Nat → Int) (f g : FrameData) (vw vh : Nat)
        (ac : AnsiCache),
        f.pixels = g.pixels → f.width = g.width → f.height = g.height →
        (getPaintS conv g [] vw vh none (getPaintS conv f [] vw vh none ac).2.2).1.ascii
          = (getPaintS conv f [] vw vh none ac).1.ascii) := by
  constructor
  · intro conv f pc vw vh prev ac
    exact getPaintS_hit conv f _ vw vh prev _ _
      (getPaintS_lookup_result conv f pc vw vh prev ac)
  · intro conv f g vw vh ac hp hw hh
    have hfg : f = g := by
      cases f; cases g
      simp only at hp hw hh
      rw [hp, hw, hh]
    subst hfg
    simp only [getPaintS, lookupP]
    rw [countColors_stable]

/-- C8 witness: part (b)'s hypotheses discharged at two equal concrete
frames (the hit part has no hypotheses). -/
theorem getPaint_cache_hit_and_determinism_witness :
    ((⟨[1, 2, 3, 255], 1, 1⟩ : FrameData).pixels
        = (⟨[1, 2, 3, 255], 1, 1⟩ : FrameData).pixels)
    ∧ ((getPaintS (fun _ _ _ => 7) ⟨[1, 2, 3, 255], 1, 1⟩ [] 1 1 none
          (getPaintS (fun _ _ _ => 7) ⟨[1, 2, 3, 255], 1, 1⟩ [] 1 1 none []).2.2).1.ascii
        = (getPaintS (fun _ _ _ => 7) ⟨[1, 2, 3, 255], 1, 1⟩ [] 1 1 none []).1.ascii) :=
  ⟨rfl,
   getPaint_cache_hit_and_determinism.2 (fun _ _ _ => 7) ⟨[1, 2, 3, 255], 1, 1⟩
     ⟨[1, 2, 3, 255], 1, 1⟩ 1 1 [] rfl rfl rfl⟩

/-! ## Lemmas about the paint-string encoder -/

theorem renderToks_append (l1 l2 : List PTok) :
    renderToks (l1 ++ l2) = renderToks l1 ++ renderToks l2 := by
  induction l1 with
  | nil => simp [renderToks, String.empty_append]
  | cons t rest ih =>
    simp [renderToks, ih, String.append_assoc]

theorem append_glyph_ne_empty (s : String) : s ++ glyphStr ≠ "" := by
  intro h
  have hlen := congrArg String.length h
  rw [String.length_append] at hlen
  have h1 : glyphStr.length = 1 := rfl
  have h2 : ("" : String).length = 0 := rfl
  omega

theorem asciiGo_eq_renderToks (cs : List (Option Int)) :
    ∀ (cur : Option Int) (acc : String),
      asciiGo cur acc cs = acc ++ renderToks (specToksGo cur (decide (acc ≠ "")) cs) := by
  induction cs with
  | nil =>
    intro cur acc
    by_cases h : acc = ""
    · subst h
      simp [asciiGo, specToksGo, renderToks]
    · simp [asciiGo, specToksGo, renderToks, renderTok, h, String.append_empty]
  | cons c rest ih =>
    intro cur acc
    by_cases hc : c = cur
    · subst hc
      simp only [asciiGo, specToksGo, ne_eq, not_true_eq_false, if_false]
      rw [ih c (acc ++ glyphStr), decide_eq_true (append_glyph_ne_empty acc)]
      simp [renderToks, renderTok, String.append_assoc]
    · by_cases h : acc = ""
      · subst h
        simp only [asciiGo, specToksGo, ne_eq, hc, not_false_eq_true, if_true,
          decide_not, decide_eq_true_eq]
        rw [ih c _, decide_eq_true (append_glyph_ne_empty _)]
        simp [renderToks, renderTok, String.append_assoc, String.empty_append,
          String.append_empty]
      · simp only [asciiGo, specToksGo, ne_eq, hc, not_false_eq_true, if_true, h]
        rw [ih c _, decide_eq_true (append_glyph_ne_empty _)]
        simp [renderToks, renderTok, renderToks_append, String.append_assoc]

/-- C5 (amended): the paint string scans cells in row-major order and emits
an open-color escape exactly when the chosen color differs from the running
current color (initially `null`), a close-styling escape immediately before
every such open except when nothing has yet been emitted, one filler glyph
per cell, and one more close-styling escape at the very end iff anything
was emitted — so the close escape also appears before every re-open, not
exactly once. -/
theorem paint_ascii_emission_discipline (cs : List (Option Int)) :
    mkAscii cs = renderToks (specToks cs) := by
  unfold mkAscii specToks
  rw [asciiGo_eq_renderToks cs none ""]
  rw [String.empty_append]
  rfl

/-- Occurrences of `pat` in a character list (at every position). -/
def countOccur (pat : List Char) : List Char → Nat
  | [] => 0
  | c :: rest =>
    (if List.isPrefixOf pat (c :: rest) then 1 else 0) + countOccur pat rest

/-- Occurrences of the close-styling escape in a paint string. -/
def closeCount (s : String) : Nat :=
  countOccur closeEsc.data s.data

/-- C5 counterexample: two cells with different chosen colors: the close
escape occurs twice in the output string — once before the re-open and
once at the end — not exactly once at the very end as claimed. -/
theorem paint_close_escape_not_once :
    closeCount (mkAscii [some 1, some 2]) = 2
      ∧ closeCount (mkAscii [some 1, some 2]) ≠ 1 := by
  constructor
  · rfl
  · decide

/-! ## Lemmas about the counting pass -/

theorem colorsGo_fst_length (conv : Nat → Nat → Nat → Int) (pixels : List Nat) :
    ∀ (ks : List Nat) (cache : AnsiCache),
      (colorsGo conv pixels ks cache).1.length = ks.length := by
  intro ks
  induction ks with
  | nil => intro cache; rfl
  | cons k rest ih =>
    intro cache
    simp only [colorsGo, List.length_cons]
    rw [ih]

theorem colorsGo_transparent (conv : Nat → Nat → Nat → Int) (pixels : List Nat) :
    ∀ (ks : List Nat) (cache : AnsiCache),
      (∀ k ∈ ks, (pixels.get? (4 * k + 3)).getD 255 < 255) →
      colorsGo conv pixels ks cache = (ks.map (fun _ => (-1 : Int)), cache) := by
  intro ks
  induction ks with
  | nil => intro cache _; rfl
  | cons k rest ih =>
    intro cache h
    have hk : (pixels.get? (4 * k + 3)).getD 255 < 255 := h k (by simp)
    have hpix : pixelColor conv pixels (4 * k) cache = (-1, cache) := by
      simp only [pixelColor]
      rw [if_pos hk]
    simp only [colorsGo]
    rw [hpix, ih cache (fun k hk => h k (by simp [hk]))]
    rfl

theorem bumpAssoc_fst_eq :
    ∀ (l m : List (Nat × Hist)), l.map Prod.fst = m.map Prod.fst →
      ∀ (i : Nat) (c c' : Int),
        (bumpAssoc l (i, c)).map Prod.fst = (bumpAssoc m (i, c')).map Prod.fst := by
  intro l
  induction l with
  | nil =>
    intro m hm i c c'
    cases m with
    | nil => rfl
    | cons e rest => exact absurd hm (by simp)
  | cons e rest ih =>
    intro m hm i c c'
    cases m with
    | nil => exact absurd hm (by simp)
    | cons e' rest' =>
      simp only [List.map_cons, List.cons.injEq] at hm
      simp only [bumpAssoc]
      by_cases hj : e.1 = i
      · rw [if_pos hj, if_pos (hm.1 ▸ hj)]
        simp only [List.map_cons, hm.1, hm.2]
      · rw [if_neg hj, if_neg (hm.1 ▸ hj)]
        simp only [List.map_cons, hm.1]
        rw [ih rest' hm.2 i c c']

theorem foldl_bumpAssoc_fst :
    ∀ (ps qs : List (Nat × Int)), ps.map Prod.fst = qs.map Prod.fst →
      ∀ (l m : List (Nat × Hist)), l.map Prod.fst = m.map Prod.fst →
        (ps.foldl bumpAssoc l).map Prod.fst = (qs.foldl bumpAssoc m).map Prod.fst := by
  intro ps
  induction ps with
  | nil =>
    intro qs hq l m hm
    cases qs with
    | nil => exact hm
    | cons e rest => exact absurd hq (by simp)
  | cons p rest ih =>
    intro qs hq l m hm
    cases qs with
    | nil => exact absurd hq (by simp)
    | cons q rest' =>
      simp only [List.map_cons, List.cons.injEq] at hq
      simp only [List.foldl_cons]
      refine ih rest' hq.2 _ _ ?_
      have := bumpAssoc_fst_eq l m hm p.1 p.2 q.2
      rw [show (p.1, p.2) = p from rfl] at this
      rw [show (p.1, q.2) = (q.1, q.2) from by rw [hq.1], show (q.1, q.2) = q from rfl] at this
      exact this

theorem lookupCell_eq_none_iff (assoc : List (Nat × Hist)) (i : Nat) :
    lookupCell assoc i = none ↔ i ∉ assoc.map Prod.fst := by
  induction assoc with
  | nil => simp [lookupCell]
  | cons e rest ih =>
    simp only [lookupCell, List.map_cons, List.mem_cons]
    by_cases hj : e.1 = i
    · simp [hj]
    · simp only [if_neg hj, ih]
      constructor
      · intro h hmem
        rcases hmem with h1 | h1
        · exact hj h1.symm
        · exact h h1
      · intro h
        exact fun hmem => h (Or.inr hmem)

theorem lookupCell_mem (assoc : List (Nat × Hist)) (i : Nat) (h : Hist)
    (hl : lookupCell assoc i = some h) : (i, h) ∈ assoc := by
  induction assoc with
  | nil => exact absurd hl (by simp [lookupCell])
  | cons e rest ih =>
    simp only [lookupCell] at hl
    by_cases hj : e.1 = i
    · rw [if_pos hj] at hl
      have he : e = (i, h) := by
        cases e
        simp only at hj
        simp only [Option.some.injEq] at hl
        rw [hj, hl]
      simp [he]
    · rw [if_neg hj] at hl
      simp [ih hl]

theorem histAdd_sentinel (m : Nat) : histAdd [(-1, m)] (-1) = [(-1, m + 1)] := by
  simp [histAdd]

theorem bumpAssoc_sentinel (l : List (Nat × Hist)) (i : Nat)
    (hl : ∀ e ∈ l, ∃ m, e.2 = [(-1, m)]) :
    ∀ e ∈ bumpAssoc l (i, -1), ∃ m, e.2 = [(-1, m)] := by
  induction l with
  | nil =>
    intro e he
    simp only [bumpAssoc, List.mem_singleton] at he
    exact ⟨1, by rw [he]⟩
  | cons e0 rest ih =>
    intro e he
    simp only [bumpAssoc] at he
    by_cases hj : e0.1 = i
    · rw [if_pos hj] at he
      rcases List.mem_cons.mp he with h1 | h1
      · obtain ⟨m, hm⟩ := hl e0 (by simp)
        refine ⟨m + 1, ?_⟩
        rw [h1]
        simp only
        rw [hm, histAdd_sentinel]
      · exact hl e (by simp [h1])
    · rw [if_neg hj] at he
      rcases List.mem_cons.mp he with h1 | h1
      · exact hl e (by simp [h1])
      · exact ih (fun e' he' => hl e' (by simp [he'])) e h1

theorem foldl_bumpAssoc_sentinel :
    ∀ (ps : List (Nat × Int)) (l : List (Nat × Hist)),
      (∀ p ∈ ps, p.2 = (-1 : Int)) →
      (∀ e ∈ l, ∃ m, e.2 = [(-1, m)]) →
      ∀ e ∈ ps.foldl bumpAssoc l, ∃ m, e.2 = [(-1, m)] := by
  intro ps
  induction ps with
  | nil => intro l _ hl e he; exact hl e he
  | cons p rest ih =>
    intro l hp hl e he
    simp only [List.foldl_cons] at he
    have hp1 : p.2 = (-1 : Int) := hp p (by simp)
    have hstep : ∀ e' ∈ bumpAssoc l p, ∃ m, e'.2 = [(-1, m)] := by
      have := bumpAssoc_sentinel l p.1 hl
      rw [show (p.1, (-1 : Int)) = p from by rw [← hp1]] at this
      exact this
    exact ih (bumpAssoc l p) (fun q hq => hp q (by simp [hq])) hstep e he

theorem materialize_length_eq (A B : List (Nat × Hist))
    (h : A.map Prod.fst = B.map Prod.fst) :
    (materialize A).length = (materialize B).length := by
  unfold materialize
  cases A with
  | nil =>
    cases B with
    | nil => rfl
    | cons b rest => exact absurd h (by simp)
  | cons a rest =>
    cases B with
    | nil => exact absurd h (by simp)
    | cons b rest' =>
      simp only [List.length_map, List.length_range]
      rw [h]

theorem materialize_get_lt (A : List (Nat × Hist)) (n : Nat)
    (hn : n < (materialize A).length) :
    (materialize A).get? n = some (lookupCell A n) := by
  unfold materialize at hn ⊢
  cases A with
  | nil => simp at hn
  | cons a rest =>
    simp only [List.length_map, List.length_range] at hn
    rw [List.get?_map, List.get?_range hn]
    rfl

theorem getProminentColor_sentinel (i m : Nat) (P : List (Option Int)) :
    getProminentColor i (some [(-1, m)]) (some P) = (P.get? i).getD none := by
  simp only [getProminentColor]
  have henum : enumKeysJs [((-1 : Int), m)] = [((-1 : Int), m)] := by
    simp [enumKeysJs, sortKeyAsc, List.filter]
  rw [henum]
  simp only [List.map, weightEntry, if_pos rfl]
  rfl

theorem prominentList_get? (prev : Option (List (Option Int))) :
    ∀ (counted : List (Option Hist)) (j i : Nat),
      (prominentList prev j counted).get? i
        = (counted.get? i).map (fun h => getProminentColor (j + i) h prev) := by
  intro counted
  induction counted with
  | nil => intro j i; simp [prominentList]
  | cons h0 rest ih =>
    intro j i
    cases i with
    | zero => simp [prominentList]
    | succ i' =>
      simp only [prominentList, List.get?_cons_succ, ih (j + 1) i']
      have : j + 1 + i' = j + (i' + 1) := by omega
      rw [this]

theorem prominentList_length (prev : Option (List (Option Int))) :
    ∀ (counted : List (Option Hist)) (j : Nat),
      (prominentList prev j counted).length = counted.length := by
  intro counted
  induction counted with
  | nil => intro j; rfl
  | cons h0 rest ih => intro j; simp [prominentList, ih]

theorem mkPaintColors_sentinel_reuse (Af Ag : List (Nat × Hist))
    (prevg : Option (List (Option Int)))
    (hfst : Af.map Prod.fst = Ag.map Prod.fst)
    (hsent : ∀ e ∈ Af, ∃ m, e.2 = [((-1 : Int), m)]) :
    mkPaintColors (materialize Af) (some (mkPaintColors (materialize Ag) prevg))
      = mkPaintColors (materialize Ag) prevg := by
  have hlen : (materialize Af).length = (materialize Ag).length :=
    materialize_length_eq Af Ag hfst
  have hPlen : (mkPaintColors (materialize Ag) prevg).length
      = (materialize Ag).length := prominentList_length prevg (materialize Ag) 0
  apply List.ext
  intro n
  by_cases hn : n < (materialize Af).length
  · rw [show mkPaintColors (materialize Af)
          (some (mkPaintColors (materialize Ag) prevg))
        = prominentList (some (mkPaintColors (materialize Ag) prevg)) 0 (materialize Af)
      from rfl]
    rw [prominentList_get?, materialize_get_lt Af n hn]
    simp only [Option.map_some', Nat.zero_add]
    cases hcl : lookupCell Af n with
    | none =>
      have hag : lookupCell Ag n = none := by
        rw [lookupCell_eq_none_iff] at hcl ⊢
        rw [← hfst]
        exact hcl
      rw [show mkPaintColors (materialize Ag) prevg
            = prominentList prevg 0 (materialize Ag) from rfl]
      rw [prominentList_get?, materialize_get_lt Ag n (hlen ▸ hn)]
      rw [hag]
      simp [getProminentColor]
    | some hst =>
      obtain ⟨m, hm⟩ := hsent (n, hst) (lookupCell_mem Af n hst hcl)
      simp only at hm
      rw [hm, getProminentColor_sentinel]
      have hnP : n < (mkPaintColors (materialize Ag) prevg).length := by omega
      rw [List.get?_eq_get hnP]
      rfl
  · have hn1 : (materialize Af).length ≤ n := not_lt.mp hn
    rw [show mkPaintColors (materialize Af)
          (some (mkPaintColors (materialize Ag) prevg))
        = prominentList (some (mkPaintColors (materialize Ag) prevg)) 0 (materialize Af)
      from rfl]
    rw [prominentList_get?]
    rw [List.get?_eq_none.mpr hn1]
    rw [List.get?_eq_none.mpr (by omega)]
    rfl

theorem mkPaint_colors (counted : List (Option Hist)) (lastPaint : Option PaintV) :
    (mkPaint counted lastPaint).colors
      = mkPaintColors counted (lastPaint.map PaintV.colors) := rfl

/-- C3 (amended): a frame whose every pixel is fully transparent, painted
for viewport `(vw, vh)` against the paint of a previous frame with the same
source dimension and pixel-buffer length for that same viewport, gets a
chosen-color array equal, cell for cell, to the previous paint's — every
occupied cell borrows the previous paint's resolved color for that exact
cell, and the unoccupied cells coincide because equal dimensions give the
two paints identical cell occupancy.  (A previous paint for the same
viewport but from a frame of a different source dimension can have a
different cell count, breaking the equality — see the counterexample.) -/
theorem transparent_frame_paint_reuses_previous
    (conv : Nat → Nat → Nat → Int) (f g : FrameData) (vw vh : Nat)
    (ac ac' : AnsiCache) (lp : Option PaintV)
    (hw : f.width = g.width) (hh : f.height = g.height)
    (hl : f.pixels.length = g.pixels.length)
    (htr : ∀ k, 4 * k < f.pixels.length →
      (f.pixels.get? (4 * k + 3)).getD 255 < 255) :
    (mkPaint (countColors conv f vw vh ac).1
        (some (mkPaint (countColors conv g vw vh ac').1 lp))).colors
      = (mkPaint (countColors conv g vw vh ac').1 lp).colors := by
  rw [mkPaint_colors, mkPaint_colors]
  simp only [Option.map_some']
  rw [show PaintV.colors (mkPaint (countColors conv g vw vh ac').1 lp)
      = mkPaintColors (countColors conv g vw vh ac').1 (Option.map PaintV.colors lp)
    from rfl]
  set ks := List.range ((f.pixels.length + 3) / 4) with hks
  have hksg : List.range ((g.pixels.length + 3) / 4) = ks := by rw [hks, hl]
  have htrks : ∀ k ∈ ks, (f.pixels.get? (4 * k + 3)).getD 255 < 255 := by
    intro k hk
    refine htr k ?_
    rw [hks] at hk
    have := List.mem_range.mp hk
    omega
  have hcf : colorsGo conv f.pixels ks ac = (ks.map (fun _ => (-1 : Int)), ac) :=
    colorsGo_transparent conv f.pixels ks ac htrks
  have hcf1 : (countColors conv f vw vh ac).1
      = materialize (buildAssoc ((ks.map (cellIndex f.width f.height vw vh)).zip
          (ks.map (fun _ => (-1 : Int))))) := by
    simp only [countColors, ← hks]
    rw [hcf]
  have hcg1 : (countColors conv g vw vh ac').1
      = materialize (buildAssoc ((ks.map (cellIndex g.width g.height vw vh)).zip
          (colorsGo conv g.pixels ks ac').1)) := by
    simp only [countColors, hksg]
  rw [hcf1, hcg1]
  have hzf : ((ks.map (cellIndex f.width f.height vw vh)).zip
        (ks.map (fun _ => (-1 : Int)))).map Prod.fst
      = ks.map (cellIndex f.width f.height vw vh) :=
    List.map_fst_zip _ _ (by simp)
  have hzg : ((ks.map (cellIndex g.width g.height vw vh)).zip
        (colorsGo conv g.pixels ks ac').1).map Prod.fst
      = ks.map (cellIndex g.width g.height vw vh) :=
    List.map_fst_zip _ _ (by rw [colorsGo_fst_length]; simp)
  refine mkPaintColors_sentinel_reuse _ _ _ ?_ ?_
  · refine foldl_bumpAssoc_fst _ _ ?_ [] [] rfl
    rw [hzf, hzg, hw, hh]
  · refine foldl_bumpAssoc_sentinel _ [] ?_ (by simp)
    intro p hp
    obtain ⟨a, b⟩ := p
    have hb := (List.mem_zip hp).2
    simp only [List.mem_map] at hb
    obtain ⟨k, _, hk⟩ := hb
    simp only
    rw [← hk]

theorem mkPaintColors_length (c : List (Option Hist))
    (p : Option (List (Option Int))) :
    (mkPaintColors c p).length = c.length :=
  prominentList_length p c 0

/-- C3 counterexample: the claim as stated quantifies over every non-null
previous Paint for the same viewport.  A fully transparent 1×1 frame
painted for viewport 2×1 against the paint of a 2×1 opaque frame for that
same viewport yields a one-cell chosen-color array, while the previous
paint has two cells — the arrays are not equal cell for cell. -/
theorem transparent_frame_reuse_needs_same_dimension :
    ¬ ((mkPaint (countColors (fun _ _ _ => 7) ⟨[0, 0, 0, 0], 1, 1⟩ 2 1 []).1
          (some (mkPaint
            (countColors (fun _ _ _ => 7) ⟨[1, 2, 3, 255, 4, 5, 6, 255], 2, 1⟩ 2 1 []).1
            none))).colors
        = (mkPaint
            (countColors (fun _ _ _ => 7) ⟨[1, 2, 3, 255, 4, 5, 6, 255], 2, 1⟩ 2 1 []).1
            none).colors) := by
  have e1 : cellIndex 1 1 2 1 0 = 0 := by norm_num [cellIndex]
  have e2 : cellIndex 2 1 2 1 0 = 0 := by norm_num [cellIndex]
  have e3 : cellIndex 2 1 2 1 1 = 1 := by norm_num [cellIndex]
  have hf : (countColors (fun _ _ _ => 7) ⟨[0, 0, 0, 0], 1, 1⟩ 2 1 []).1
      = [some [(-1, 1)]] := by
    simp only [countColors]
    rw [show ([0, 0, 0, 0] : List Nat).length = 4 from rfl]
    rw [show List.range ((4 + 3) / 4) = [0] from rfl]
    rw [show List.map (cellIndex 1 1 2 1) [0] = [0] from by rw [List.map_singleton, e1]]
    rw [show colorsGo (fun _ _ _ => 7) [0, 0, 0, 0] [0] [] = ([-1], []) from rfl]
    rfl
  have hg : (countColors (fun _ _ _ => 7) ⟨[1, 2, 3, 255, 4, 5, 6, 255], 2, 1⟩ 2 1 []).1
      = [some [(7, 1)], some [(7, 1)]] := by
    simp only [countColors]
    rw [show ([1, 2, 3, 255, 4, 5, 6, 255] : List Nat).length = 8 from rfl]
    rw [show List.range ((8 + 3) / 4) = [0, 1] from rfl]
    rw [show List.map (cellIndex 2 1 2 1) [0, 1] = [0, 1] from by
      rw [show List.map (cellIndex 2 1 2 1) [0, 1]
          = [cellIndex 2 1 2 1 0, cellIndex 2 1 2 1 1] from rfl, e2, e3]]
    rw [show (colorsGo (fun _ _ _ => 7) [1, 2, 3, 255, 4, 5, 6, 255] [0, 1] []).1
        = [7, 7] from rfl]
    rfl
  intro heq
  have hlen := congrArg List.length heq
  rw [mkPaint_colors, mkPaint_colors] at hlen
  rw [mkPaintColors_length, mkPaintColors_length, hf, hg] at hlen
  exact absurd hlen (by decide)

/-- C3 witness: the amended theorem applied to a transparent 2×1 frame
following an opaque 2×1 frame for viewport 2×1: the second paint's colors
equal the first paint's. -/
theorem transparent_frame_paint_reuses_previous_witness :
    ((⟨[9, 9, 9, 0, 9, 9, 9, 10], 2, 1⟩ : FrameData).width
        = (⟨[1, 2, 3, 255, 4, 5, 6, 255], 2, 1⟩ : FrameData).width)
    ∧ ((mkPaint (countColors (fun _ _ _ => 7) ⟨[9, 9, 9, 0, 9, 9, 9, 10], 2, 1⟩ 2 1 []).1
          (some (mkPaint
            (countColors (fun _ _ _ => 7) ⟨[1, 2, 3, 255, 4, 5, 6, 255], 2, 1⟩ 2 1 []).1
            none))).colors
        = (mkPaint
            (countColors (fun _ _ _ => 7) ⟨[1, 2, 3, 255, 4, 5, 6, 255], 2, 1⟩ 2 1 []).1
            none).colors) :=
  ⟨rfl,
   transparent_frame_paint_reuses_previous (fun _ _ _ => 7)
     ⟨[9, 9, 9, 0, 9, 9, 9, 10], 2, 1⟩ ⟨[1, 2, 3, 255, 4, 5, 6, 255], 2, 1⟩ 2 1 [] [] none
     rfl rfl rfl (by
       intro k hk
       have hk2 : k < 2 := by simpa using (by omega : 4 * k < 8 → k < 2) hk
       interval_cases k <;> decide)⟩
